import Mathlib

/-!
Verification of `src/scripts/extrude.py`: a polygon extruder producing
Plotly-style mesh fragments.  The two functions under study are
`polygon_to_3d_top` (top surface: triangulate the polygon and lift every
vertex to `z_top`) and `polygon_side_walls` (vertical skirt: two triangles
per boundary edge connecting `z = 0` to `z = z_top`).

Modelling decisions:
* x/y coordinates are exact rationals (the Python code only copies and
  compares them; it never does arithmetic on them).
* Heights are modelled by `FVal`, a rational extended with `inf`, `ninf`
  and `nan`, because the Python code accepts any float as `z_top` and only
  ever stores it into the output `z` lists (again no arithmetic), so
  non-finite heights flow through unchanged.
* `shapely.ops.triangulate` is an external library call; the embedding of
  `polygon_to_3d_top` is parameterised by the list of triangles (each given
  by its exterior coordinate ring) that the triangulation returns for each
  polygon.
-/

namespace Extrude

/-- A Python float value as far as this program manipulates it: a finite
rational or one of the non-finite floats.  The extruder only stores these,
never computes with them. -/
inductive FVal where
  | fin (q : ℚ)
  | inf
  | ninf
  | nan
deriving DecidableEq, Repr

/-- A 2D boundary point `(x, y)`, as yielded by `poly.exterior.coords`. -/
abbrev Pt := ℚ × ℚ

/-- A polygon, represented by its exterior coordinate sequence (shapely
usually closes the ring, i.e. repeats the first point at the end). -/
abbrev Poly := List Pt

/-- The `geometry` argument: `shapely.geometry.Polygon` or `MultiPolygon`. -/
inductive Geometry where
  | polygon (p : Poly)
  | multiPolygon (ps : List Poly)

/-- The `isinstance(geometry, MultiPolygon)` branch at the top of both
functions: `polys = list(geometry.geoms)` or `polys = [geometry]`. -/
def geoms : Geometry → List Poly
  | .polygon p => [p]
  | .multiPolygon ps => ps

/-- The dict `{x, y, z, i, j, k}` of parallel coordinate lists and parallel
triangle-index lists that both functions return for Plotly `Mesh3d`. -/
structure Fragment where
  x : List ℚ
  y : List ℚ
  z : List FVal
  i : List ℕ
  j : List ℕ
  k : List ℕ
deriving DecidableEq, Repr

/-- The six empty lists both functions start from. -/
def Fragment.empty : Fragment := ⟨[], [], [], [], [], []⟩

/-- Appending the per-iteration contributions: `list.extend`/`list.append`
on each of the six lists, in loop order. -/
def Fragment.app (f g : Fragment) : Fragment :=
  ⟨f.x ++ g.x, f.y ++ g.y, f.z ++ g.z, f.i ++ g.i, f.j ++ g.j, f.k ++ g.k⟩

/-- Concatenation of a list of per-iteration fragments, in order. -/
def fragConcat (l : List Fragment) : Fragment :=
  l.foldr Fragment.app Fragment.empty

/-- Renumbering all triangle indices of a fragment by a vertex offset
(used only in theorem statements about multipolygon concatenation). -/
def Fragment.shift (f : Fragment) (d : ℕ) : Fragment :=
  ⟨f.x, f.y, f.z, f.i.map (· + d), f.j.map (· + d), f.k.map (· + d)⟩

/-- Concatenate two fragments, renumbering the second one's triangle
indices past the first one's vertices. -/
def mergeShift (f g : Fragment) : Fragment :=
  f.app (g.shift f.x.length)

/-! ### polygon_to_3d_top (src/scripts/extrude.py lines 7-47) -/

/-- One iteration of `for tri in triangles` (lines 25-38): take the x and y
of the first 3 coordinates of the triangle's exterior ring, set
`z = [z_top]*3`, and append one triangle `(offset, offset+1, offset+2)`. -/
def topTriangle (vertex_offset : ℕ) (z_top : FVal) (coords : List Pt) : Fragment :=
  { x := (coords.take 3).map Prod.fst
    y := (coords.take 3).map Prod.snd
    z := [z_top, z_top, z_top]
    i := [vertex_offset + 0]
    j := [vertex_offset + 1]
    k := [vertex_offset + 2] }

/-- The inner loop over the triangulation result of one polygon, with
`vertex_offset += 3` per triangle. -/
def topTriangles (vertex_offset : ℕ) (z_top : FVal) : List (List Pt) → Fragment
  | [] => Fragment.empty
  | t :: ts =>
      (topTriangle vertex_offset z_top t).app (topTriangles (vertex_offset + 3) z_top ts)

/-- The outer loop `for poly in polys` (lines 22-38); the vertex offset
carries over between polygons. -/
def topPolys (tri : Poly → List (List Pt)) (vertex_offset : ℕ) (z_top : FVal) :
    List Poly → Fragment
  | [] => Fragment.empty
  | p :: ps =>
      (topTriangles vertex_offset z_top (tri p)).app
        (topPolys tri (vertex_offset + 3 * (tri p).length) z_top ps)

/-- `polygon_to_3d_top(geometry, z_top)`, parameterised by the external
`shapely.ops.triangulate` (as the exterior coordinate rings it returns for
each polygon). -/
def polygon_to_3d_top (tri : Poly → List (List Pt)) (geometry : Geometry)
    (z_top : FVal) : Fragment :=
  topPolys tri 0 z_top (geoms geometry)

/-! ### polygon_side_walls (src/scripts/extrude.py lines 49-103) -/

/-- Lines 66-69: `boundary = list(poly.exterior.coords)`, then
`if len(boundary) > 1 and boundary[0] == boundary[-1]: boundary = boundary[:-1]`. -/
def stripClose (boundary : List Pt) : List Pt :=
  if 1 < boundary.length ∧ boundary.head? = boundary.getLast? then
    boundary.dropLast
  else boundary

/-- One iteration of the edge loop (lines 71-94) for edge `(p1, p2)`:
append the x/y/z of `top1, top2, bot1, bot2` and the two triangles
`(offset, offset+1, offset+2)` and `(offset+1, offset+3, offset+2)`. -/
def wallEdge (vertex_offset : ℕ) (z_top : FVal) (p1 p2 : Pt) : Fragment :=
  { x := [p1.1, p2.1, p1.1, p2.1]
    y := [p1.2, p2.2, p1.2, p2.2]
    z := [z_top, z_top, FVal.fin 0, FVal.fin 0]
    i := [vertex_offset + 0, vertex_offset + 1]
    j := [vertex_offset + 1, vertex_offset + 3]
    k := [vertex_offset + 2, vertex_offset + 2] }

/-- The contribution of iteration `idx` of the edge loop: the edge runs from
`boundary[idx]` to `boundary[(idx + 1) % n]` and the vertex offset at that
iteration is the incoming offset plus `4 * idx`. -/
def edgeFrag (vertex_offset : ℕ) (z_top : FVal) (b : List Pt) (idx : ℕ) : Fragment :=
  wallEdge (vertex_offset + 4 * idx) z_top
    (b.getD idx (0, 0)) (b.getD ((idx + 1) % b.length) (0, 0))

/-- The loop `for idx in range(n)` over one (de-duplicated) boundary, with
`x1, y1 = boundary[idx]`, `x2, y2 = boundary[(idx + 1) % n]` and the vertex
offset advancing by 4 per edge. -/
def wallEdges (vertex_offset : ℕ) (z_top : FVal) (b : List Pt) : Fragment :=
  fragConcat ((List.range b.length).map (edgeFrag vertex_offset z_top b))

/-- The outer loop `for poly in polys` (lines 64-94); the vertex offset
carries over between polygons. -/
def wallPolys (vertex_offset : ℕ) (z_top : FVal) : List Poly → Fragment
  | [] => Fragment.empty
  | p :: ps =>
      (wallEdges vertex_offset z_top (stripClose p)).app
        (wallPolys (vertex_offset + 4 * (stripClose p).length) z_top ps)

/-- `polygon_side_walls(geometry, z_top)`. -/
def polygon_side_walls (geometry : Geometry) (z_top : FVal) : Fragment :=
  wallPolys 0 z_top (geoms geometry)

/-! ### Concrete inputs used by witnesses -/

/-- The closed unit-square ring `[(0,0),(1,0),(1,1),(0,1),(0,0)]`. -/
def sqc : Poly := [(0, 0), (1, 0), (1, 1), (0, 1), (0, 0)]

/-- A second, disjoint square ring shifted by `(10,10)`. -/
def sqc2 : Poly := [(10, 10), (11, 10), (11, 11), (10, 11), (10, 10)]

/-- A triangulation function behaving like shapely on the unit square:
every polygon maps to two triangles, each a closed 4-point ring. -/
def triSq : Poly → List (List Pt) := fun _ =>
  [[(0, 0), (1, 0), (1, 1), (0, 0)], [(0, 0), (1, 1), (0, 1), (0, 0)]]

/-- The triangulation that returns no triangles at all. -/
def triEmpty : Poly → List (List Pt) := fun _ => []

/-! ### Fragment component lemmas -/

@[simp] lemma app_x (f g : Fragment) : (f.app g).x = f.x ++ g.x := rfl
@[simp] lemma app_y (f g : Fragment) : (f.app g).y = f.y ++ g.y := rfl
@[simp] lemma app_z (f g : Fragment) : (f.app g).z = f.z ++ g.z := rfl
@[simp] lemma app_i (f g : Fragment) : (f.app g).i = f.i ++ g.i := rfl
@[simp] lemma app_j (f g : Fragment) : (f.app g).j = f.j ++ g.j := rfl
@[simp] lemma app_k (f g : Fragment) : (f.app g).k = f.k ++ g.k := rfl

@[simp] lemma empty_x : Fragment.empty.x = [] := rfl
@[simp] lemma empty_y : Fragment.empty.y = [] := rfl
@[simp] lemma empty_z : Fragment.empty.z = [] := rfl
@[simp] lemma empty_i : Fragment.empty.i = [] := rfl
@[simp] lemma empty_j : Fragment.empty.j = [] := rfl
@[simp] lemma empty_k : Fragment.empty.k = [] := rfl

@[simp] lemma shift_x (f : Fragment) (d : ℕ) : (f.shift d).x = f.x := rfl
@[simp] lemma shift_y (f : Fragment) (d : ℕ) : (f.shift d).y = f.y := rfl
@[simp] lemma shift_z (f : Fragment) (d : ℕ) : (f.shift d).z = f.z := rfl
@[simp] lemma shift_i (f : Fragment) (d : ℕ) : (f.shift d).i = f.i.map (· + d) := rfl
@[simp] lemma shift_j (f : Fragment) (d : ℕ) : (f.shift d).j = f.j.map (· + d) := rfl
@[simp] lemma shift_k (f : Fragment) (d : ℕ) : (f.shift d).k = f.k.map (· + d) := rfl

lemma app_empty (f : Fragment) : f.app Fragment.empty = f := by
  cases f; simp [Fragment.app, Fragment.empty]

@[simp] lemma fragConcat_nil : fragConcat [] = Fragment.empty := rfl

@[simp] lemma fragConcat_cons (f : Fragment) (l : List Fragment) :
    fragConcat (f :: l) = f.app (fragConcat l) := rfl

lemma fragConcat_x (l : List Fragment) :
    (fragConcat l).x = (l.map Fragment.x).flatten := by
  induction l with
  | nil => rfl
  | cons f l ih => simp [ih]

lemma fragConcat_y (l : List Fragment) :
    (fragConcat l).y = (l.map Fragment.y).flatten := by
  induction l with
  | nil => rfl
  | cons f l ih => simp [ih]

lemma fragConcat_z (l : List Fragment) :
    (fragConcat l).z = (l.map Fragment.z).flatten := by
  induction l with
  | nil => rfl
  | cons f l ih => simp [ih]

lemma fragConcat_i (l : List Fragment) :
    (fragConcat l).i = (l.map Fragment.i).flatten := by
  induction l with
  | nil => rfl
  | cons f l ih => simp [ih]

lemma fragConcat_j (l : List Fragment) :
    (fragConcat l).j = (l.map Fragment.j).flatten := by
  induction l with
  | nil => rfl
  | cons f l ih => simp [ih]

lemma fragConcat_k (l : List Fragment) :
    (fragConcat l).k = (l.map Fragment.k).flatten := by
  induction l with
  | nil => rfl
  | cons f l ih => simp [ih]

/-! ### Generic list lemmas for constant-size blocks -/

lemma sum_map_const_range (n c : ℕ) :
    (((List.range n).map (fun _ => c)).sum) = n * c := by
  induction n with
  | zero => simp
  | succ m ih =>
      rw [List.range_succ]
      simp [ih, Nat.succ_mul]

/-- Slicing a flatten of constant-length blocks at a block boundary
recovers the block. -/
lemma flatten_slice_const {α : Type} {c : ℕ} (l : List (List α))
    (h : ∀ a ∈ l, a.length = c) {q : ℕ} (hq : q < l.length) :
    ((l.flatten.drop (c * q)).take c) = l.getD q [] := by
  induction l generalizing q with
  | nil => simp at hq
  | cons a t ih =>
      have ha : a.length = c := h a (List.mem_cons_self a t)
      cases q with
      | zero =>
          have : (a ++ t.flatten).take c = a ++ t.flatten.take 0 := by
            rw [← ha]
            simp
          simp [this]
      | succ q =>
          have hq2 : q < t.length := by simpa using hq
          have hdrop : (a ++ t.flatten).drop (c * (q + 1)) =
              t.flatten.drop (c * q) := by
            have : c * (q + 1) = a.length + c * q := by rw [ha]; ring
            rw [this, List.drop_append]
          have ht : ∀ b ∈ t, b.length = c := fun b hb => h b (List.mem_cons_of_mem a hb)
          simp only [List.flatten_cons, hdrop, ih ht hq2, List.getD]
          rfl

/-- Element access in a flatten of constant-length blocks. -/
lemma flatten_getElem_const {α : Type} {c : ℕ} (l : List (List α))
    (h : ∀ a ∈ l, a.length = c) {q r : ℕ} (hq : q < l.length) (hr : r < c) :
    l.flatten[c * q + r]? = (l.getD q [])[r]? := by
  have hs := flatten_slice_const l h hq
  have : ((l.flatten.drop (c * q)).take c)[r]? = (l.getD q [])[r]? := by rw [hs]
  rwa [List.getElem?_take, if_pos hr, List.getElem?_drop] at this

lemma flatten_length_const {α : Type} {c : ℕ} (l : List (List α))
    (h : ∀ a ∈ l, a.length = c) : l.flatten.length = c * l.length := by
  rw [List.length_flatten]
  induction l with
  | nil => simp
  | cons a t ih =>
      have ha : a.length = c := h a (List.mem_cons_self a t)
      have ht : ∀ b ∈ t, b.length = c := fun b hb => h b (List.mem_cons_of_mem a hb)
      simp [ha, ih ht, Nat.mul_succ, Nat.add_comm]

/-- Reading an element out of an established slice. -/
lemma slice_getElem {α : Type} {l s : List α} {m c r : ℕ}
    (h : (l.drop m).take c = s) (hr : r < c) : l[m + r]? = s[r]? := by
  rw [← h, List.getElem?_take, if_pos hr, List.getElem?_drop]

/-! ### Structure of the wall fragment of one boundary -/

lemma wallEdges_x (off : ℕ) (zt : FVal) (b : List Pt) :
    (wallEdges off zt b).x =
      ((List.range b.length).map (fun idx => (edgeFrag off zt b idx).x)).flatten := by
  simp only [wallEdges, fragConcat_x, List.map_map]
  rfl

lemma wallEdges_y (off : ℕ) (zt : FVal) (b : List Pt) :
    (wallEdges off zt b).y =
      ((List.range b.length).map (fun idx => (edgeFrag off zt b idx).y)).flatten := by
  simp only [wallEdges, fragConcat_y, List.map_map]
  rfl

lemma wallEdges_z (off : ℕ) (zt : FVal) (b : List Pt) :
    (wallEdges off zt b).z =
      ((List.range b.length).map (fun idx => (edgeFrag off zt b idx).z)).flatten := by
  simp only [wallEdges, fragConcat_z, List.map_map]
  rfl

lemma wallEdges_i (off : ℕ) (zt : FVal) (b : List Pt) :
    (wallEdges off zt b).i =
      ((List.range b.length).map (fun idx => (edgeFrag off zt b idx).i)).flatten := by
  simp only [wallEdges, fragConcat_i, List.map_map]
  rfl

lemma wallEdges_j (off : ℕ) (zt : FVal) (b : List Pt) :
    (wallEdges off zt b).j =
      ((List.range b.length).map (fun idx => (edgeFrag off zt b idx).j)).flatten := by
  simp only [wallEdges, fragConcat_j, List.map_map]
  rfl

lemma wallEdges_k (off : ℕ) (zt : FVal) (b : List Pt) :
    (wallEdges off zt b).k =
      ((List.range b.length).map (fun idx => (edgeFrag off zt b idx).k)).flatten := by
  simp only [wallEdges, fragConcat_k, List.map_map]
  rfl

lemma wallEdges_x_length (off : ℕ) (zt : FVal) (b : List Pt) :
    (wallEdges off zt b).x.length = 4 * b.length := by
  have h : ∀ a ∈ (List.range b.length).map (fun idx => (edgeFrag off zt b idx).x),
      a.length = 4 := by
    intro a ha
    obtain ⟨idx, _, rfl⟩ := List.mem_map.1 ha
    rfl
  rw [wallEdges_x, flatten_length_const _ h]
  simp

lemma wallEdges_y_length (off : ℕ) (zt : FVal) (b : List Pt) :
    (wallEdges off zt b).y.length = 4 * b.length := by
  have h : ∀ a ∈ (List.range b.length).map (fun idx => (edgeFrag off zt b idx).y),
      a.length = 4 := by
    intro a ha
    obtain ⟨idx, _, rfl⟩ := List.mem_map.1 ha
    rfl
  rw [wallEdges_y, flatten_length_const _ h]
  simp

lemma wallEdges_z_length (off : ℕ) (zt : FVal) (b : List Pt) :
    (wallEdges off zt b).z.length = 4 * b.length := by
  have h : ∀ a ∈ (List.range b.length).map (fun idx => (edgeFrag off zt b idx).z),
      a.length = 4 := by
    intro a ha
    obtain ⟨idx, _, rfl⟩ := List.mem_map.1 ha
    rfl
  rw [wallEdges_z, flatten_length_const _ h]
  simp

lemma wallEdges_i_length (off : ℕ) (zt : FVal) (b : List Pt) :
    (wallEdges off zt b).i.length = 2 * b.length := by
  have h : ∀ a ∈ (List.range b.length).map (fun idx => (edgeFrag off zt b idx).i),
      a.length = 2 := by
    intro a ha
    obtain ⟨idx, _, rfl⟩ := List.mem_map.1 ha
    rfl
  rw [wallEdges_i, flatten_length_const _ h]
  simp

lemma wallEdges_j_length (off : ℕ) (zt : FVal) (b : List Pt) :
    (wallEdges off zt b).j.length = 2 * b.length := by
  have h : ∀ a ∈ (List.range b.length).map (fun idx => (edgeFrag off zt b idx).j),
      a.length = 2 := by
    intro a ha
    obtain ⟨idx, _, rfl⟩ := List.mem_map.1 ha
    rfl
  rw [wallEdges_j, flatten_length_const _ h]
  simp

lemma wallEdges_k_length (off : ℕ) (zt : FVal) (b : List Pt) :
    (wallEdges off zt b).k.length = 2 * b.length := by
  have h : ∀ a ∈ (List.range b.length).map (fun idx => (edgeFrag off zt b idx).k),
      a.length = 2 := by
    intro a ha
    obtain ⟨idx, _, rfl⟩ := List.mem_map.1 ha
    rfl
  rw [wallEdges_k, flatten_length_const _ h]
  simp

/-! ### Per-edge slices of the wall fragment -/

lemma getD_of_range_map {α : Type} (f : ℕ → α) (n idx : ℕ) (d : α) (h : idx < n) :
    ((List.range n).map f).getD idx d = f idx := by
  rw [List.getD_eq_getElem?_getD, List.getElem?_map, List.getElem?_range h]
  rfl

lemma wallEdges_x_slice (off : ℕ) (zt : FVal) (b : List Pt) {idx : ℕ}
    (h : idx < b.length) :
    ((wallEdges off zt b).x.drop (4 * idx)).take 4 = (edgeFrag off zt b idx).x := by
  have hlen : ∀ a ∈ (List.range b.length).map (fun idx => (edgeFrag off zt b idx).x),
      a.length = 4 := by
    intro a ha
    obtain ⟨m, _, rfl⟩ := List.mem_map.1 ha
    rfl
  rw [wallEdges_x, flatten_slice_const _ hlen (by simpa using h),
    getD_of_range_map _ _ _ _ h]

lemma wallEdges_y_slice (off : ℕ) (zt : FVal) (b : List Pt) {idx : ℕ}
    (h : idx < b.length) :
    ((wallEdges off zt b).y.drop (4 * idx)).take 4 = (edgeFrag off zt b idx).y := by
  have hlen : ∀ a ∈ (List.range b.length).map (fun idx => (edgeFrag off zt b idx).y),
      a.length = 4 := by
    intro a ha
    obtain ⟨m, _, rfl⟩ := List.mem_map.1 ha
    rfl
  rw [wallEdges_y, flatten_slice_const _ hlen (by simpa using h),
    getD_of_range_map _ _ _ _ h]

lemma wallEdges_z_slice (off : ℕ) (zt : FVal) (b : List Pt) {idx : ℕ}
    (h : idx < b.length) :
    ((wallEdges off zt b).z.drop (4 * idx)).take 4 = (edgeFrag off zt b idx).z := by
  have hlen : ∀ a ∈ (List.range b.length).map (fun idx => (edgeFrag off zt b idx).z),
      a.length = 4 := by
    intro a ha
    obtain ⟨m, _, rfl⟩ := List.mem_map.1 ha
    rfl
  rw [wallEdges_z, flatten_slice_const _ hlen (by simpa using h),
    getD_of_range_map _ _ _ _ h]

lemma wallEdges_i_slice (off : ℕ) (zt : FVal) (b : List Pt) {idx : ℕ}
    (h : idx < b.length) :
    ((wallEdges off zt b).i.drop (2 * idx)).take 2 = (edgeFrag off zt b idx).i := by
  have hlen : ∀ a ∈ (List.range b.length).map (fun idx => (edgeFrag off zt b idx).i),
      a.length = 2 := by
    intro a ha
    obtain ⟨m, _, rfl⟩ := List.mem_map.1 ha
    rfl
  rw [wallEdges_i, flatten_slice_const _ hlen (by simpa using h),
    getD_of_range_map _ _ _ _ h]

lemma wallEdges_j_slice (off : ℕ) (zt : FVal) (b : List Pt) {idx : ℕ}
    (h : idx < b.length) :
    ((wallEdges off zt b).j.drop (2 * idx)).take 2 = (edgeFrag off zt b idx).j := by
  have hlen : ∀ a ∈ (List.range b.length).map (fun idx => (edgeFrag off zt b idx).j),
      a.length = 2 := by
    intro a ha
    obtain ⟨m, _, rfl⟩ := List.mem_map.1 ha
    rfl
  rw [wallEdges_j, flatten_slice_const _ hlen (by simpa using h),
    getD_of_range_map _ _ _ _ h]

lemma wallEdges_k_slice (off : ℕ) (zt : FVal) (b : List Pt) {idx : ℕ}
    (h : idx < b.length) :
    ((wallEdges off zt b).k.drop (2 * idx)).take 2 = (edgeFrag off zt b idx).k := by
  have hlen : ∀ a ∈ (List.range b.length).map (fun idx => (edgeFrag off zt b idx).k),
      a.length = 2 := by
    intro a ha
    obtain ⟨m, _, rfl⟩ := List.mem_map.1 ha
    rfl
  rw [wallEdges_k, flatten_slice_const _ hlen (by simpa using h),
    getD_of_range_map _ _ _ _ h]

/-! ### Index bounds of the wall fragment -/

lemma wallEdges_index_bound (off : ℕ) (zt : FVal) (b : List Pt) {v : ℕ}
    (h : v ∈ (wallEdges off zt b).i ∨ v ∈ (wallEdges off zt b).j ∨
      v ∈ (wallEdges off zt b).k) :
    off ≤ v ∧ v < off + 4 * b.length := by
  have key : ∀ idx ∈ List.range b.length,
      (v ∈ (edgeFrag off zt b idx).i ∨ v ∈ (edgeFrag off zt b idx).j ∨
        v ∈ (edgeFrag off zt b idx).k) → off ≤ v ∧ v < off + 4 * b.length := by
    intro idx hidx hm
    have hlt : idx < b.length := List.mem_range.1 hidx
    have hv : v = off + 4 * idx + 0 ∨ v = off + 4 * idx + 1 ∨
        v = off + 4 * idx + 2 ∨ v = off + 4 * idx + 3 := by
      rcases hm with hm | hm | hm <;> simp [edgeFrag, wallEdge] at hm <;> omega
    omega
  rcases h with h | h | h
  · rw [wallEdges_i] at h
    obtain ⟨s, hs, hv⟩ := List.mem_flatten.1 h
    obtain ⟨idx, hidx, rfl⟩ := List.mem_map.1 hs
    exact key idx hidx (Or.inl hv)
  · rw [wallEdges_j] at h
    obtain ⟨s, hs, hv⟩ := List.mem_flatten.1 h
    obtain ⟨idx, hidx, rfl⟩ := List.mem_map.1 hs
    exact key idx hidx (Or.inr (Or.inl hv))
  · rw [wallEdges_k] at h
    obtain ⟨s, hs, hv⟩ := List.mem_flatten.1 h
    obtain ⟨idx, hidx, rfl⟩ := List.mem_map.1 hs
    exact key idx hidx (Or.inr (Or.inr hv))

/-! ### The outer polygon loop of polygon_side_walls -/

lemma walls_single (p : Poly) (zt : FVal) :
    polygon_side_walls (.polygon p) zt = wallEdges 0 zt (stripClose p) := by
  simp [polygon_side_walls, geoms, wallPolys, app_empty]

lemma wallPolys_x_length (off : ℕ) (zt : FVal) (ps : List Poly) :
    (wallPolys off zt ps).x.length =
      4 * ((ps.map (fun p => (stripClose p).length)).sum) := by
  induction ps generalizing off with
  | nil => simp [wallPolys]
  | cons p ps ih => simp [wallPolys, wallEdges_x_length, ih, Nat.mul_add]

lemma wallPolys_y_length (off : ℕ) (zt : FVal) (ps : List Poly) :
    (wallPolys off zt ps).y.length =
      4 * ((ps.map (fun p => (stripClose p).length)).sum) := by
  induction ps generalizing off with
  | nil => simp [wallPolys]
  | cons p ps ih => simp [wallPolys, wallEdges_y_length, ih, Nat.mul_add]

lemma wallPolys_z_length (off : ℕ) (zt : FVal) (ps : List Poly) :
    (wallPolys off zt ps).z.length =
      4 * ((ps.map (fun p => (stripClose p).length)).sum) := by
  induction ps generalizing off with
  | nil => simp [wallPolys]
  | cons p ps ih => simp [wallPolys, wallEdges_z_length, ih, Nat.mul_add]

lemma wallPolys_i_length (off : ℕ) (zt : FVal) (ps : List Poly) :
    (wallPolys off zt ps).i.length =
      2 * ((ps.map (fun p => (stripClose p).length)).sum) := by
  induction ps generalizing off with
  | nil => simp [wallPolys]
  | cons p ps ih => simp [wallPolys, wallEdges_i_length, ih, Nat.mul_add]

lemma wallPolys_j_length (off : ℕ) (zt : FVal) (ps : List Poly) :
    (wallPolys off zt ps).j.length =
      2 * ((ps.map (fun p => (stripClose p).length)).sum) := by
  induction ps generalizing off with
  | nil => simp [wallPolys]
  | cons p ps ih => simp [wallPolys, wallEdges_j_length, ih, Nat.mul_add]

lemma wallPolys_k_length (off : ℕ) (zt : FVal) (ps : List Poly) :
    (wallPolys off zt ps).k.length =
      2 * ((ps.map (fun p => (stripClose p).length)).sum) := by
  induction ps generalizing off with
  | nil => simp [wallPolys]
  | cons p ps ih => simp [wallPolys, wallEdges_k_length, ih, Nat.mul_add]

lemma wallPolys_index_bound (off : ℕ) (zt : FVal) (ps : List Poly) {v : ℕ}
    (h : v ∈ (wallPolys off zt ps).i ∨ v ∈ (wallPolys off zt ps).j ∨
      v ∈ (wallPolys off zt ps).k) :
    off ≤ v ∧ v < off + 4 * ((ps.map (fun p => (stripClose p).length)).sum) := by
  induction ps generalizing off with
  | nil => simp [wallPolys] at h
  | cons p ps ih =>
      simp only [wallPolys, app_i, app_j, app_k, List.mem_append] at h
      have step : (v ∈ (wallEdges off zt (stripClose p)).i ∨
          v ∈ (wallEdges off zt (stripClose p)).j ∨
          v ∈ (wallEdges off zt (stripClose p)).k) ∨
          (v ∈ (wallPolys (off + 4 * (stripClose p).length) zt ps).i ∨
            v ∈ (wallPolys (off + 4 * (stripClose p).length) zt ps).j ∨
            v ∈ (wallPolys (off + 4 * (stripClose p).length) zt ps).k) := by
        tauto
      rcases step with hs | hs
      · have := wallEdges_index_bound off zt (stripClose p) hs
        simp only [List.map_cons, List.sum_cons]
        omega
      · have := ih _ hs
        simp only [List.map_cons, List.sum_cons]
        omega

/-! ### Offset shifting -/

lemma shift_app (f g : Fragment) (d : ℕ) :
    (f.app g).shift d = (f.shift d).app (g.shift d) := by
  simp [Fragment.app, Fragment.shift]

lemma shift_empty (d : ℕ) : Fragment.empty.shift d = Fragment.empty := by
  simp [Fragment.empty, Fragment.shift]

lemma fragConcat_shift (l : List Fragment) (d : ℕ) :
    (fragConcat l).shift d = fragConcat (l.map (·.shift d)) := by
  induction l with
  | nil => simp [shift_empty]
  | cons f l ih => simp [shift_app, ih]

lemma wallEdge_shift (a d : ℕ) (zt : FVal) (p1 p2 : Pt) :
    wallEdge (a + d) zt p1 p2 = (wallEdge a zt p1 p2).shift d := by
  simp only [wallEdge, Fragment.shift, Fragment.mk.injEq, List.map_cons,
    List.map_nil, List.cons.injEq, and_true, true_and]
  omega

lemma edgeFrag_shift (a d : ℕ) (zt : FVal) (b : List Pt) (idx : ℕ) :
    edgeFrag (a + d) zt b idx = (edgeFrag a zt b idx).shift d := by
  have : a + d + 4 * idx = (a + 4 * idx) + d := by omega
  rw [edgeFrag, this, wallEdge_shift]
  rfl

lemma wallEdges_shift (a d : ℕ) (zt : FVal) (b : List Pt) :
    wallEdges (a + d) zt b = (wallEdges a zt b).shift d := by
  have hfun : edgeFrag (a + d) zt b = (fun g => g.shift d) ∘ edgeFrag a zt b :=
    funext (fun idx => edgeFrag_shift a d zt b idx)
  rw [wallEdges, wallEdges, fragConcat_shift, List.map_map, hfun]

lemma wallPolys_shift (a d : ℕ) (zt : FVal) (ps : List Poly) :
    wallPolys (a + d) zt ps = (wallPolys a zt ps).shift d := by
  induction ps generalizing a with
  | nil => simp [wallPolys, shift_empty]
  | cons p ps ih =>
      have harith : a + d + 4 * (stripClose p).length =
          (a + 4 * (stripClose p).length) + d := by omega
      rw [wallPolys, wallPolys, shift_app, harith, ih, wallEdges_shift]

lemma topTriangle_shift (a d : ℕ) (zt : FVal) (c : List Pt) :
    topTriangle (a + d) zt c = (topTriangle a zt c).shift d := by
  simp only [topTriangle, Fragment.shift, Fragment.mk.injEq, List.map_cons,
    List.map_nil, List.cons.injEq, and_true, true_and]
  omega

lemma topTriangles_shift (a d : ℕ) (zt : FVal) (ts : List (List Pt)) :
    topTriangles (a + d) zt ts = (topTriangles a zt ts).shift d := by
  induction ts generalizing a with
  | nil => simp [topTriangles, shift_empty]
  | cons t ts ih =>
      have harith : a + d + 3 = (a + 3) + d := by omega
      rw [topTriangles, topTriangles, shift_app, harith, ih, topTriangle_shift]

lemma topPolys_shift (tri : Poly → List (List Pt)) (a d : ℕ) (zt : FVal)
    (ps : List Poly) :
    topPolys tri (a + d) zt ps = (topPolys tri a zt ps).shift d := by
  induction ps generalizing a with
  | nil => simp [topPolys, shift_empty]
  | cons p ps ih =>
      have harith : a + d + 3 * (tri p).length =
          (a + 3 * (tri p).length) + d := by omega
      rw [topPolys, topPolys, shift_app, harith, ih, topTriangles_shift]

/-! ### Structure of the top fragment -/

lemma top_single (tri : Poly → List (List Pt)) (p : Poly) (zt : FVal) :
    polygon_to_3d_top tri (.polygon p) zt = topTriangles 0 zt (tri p) := by
  simp [polygon_to_3d_top, geoms, topPolys, app_empty]

lemma topTriangles_z (off : ℕ) (zt : FVal) (ts : List (List Pt)) :
    (topTriangles off zt ts).z = List.replicate (3 * ts.length) zt := by
  induction ts generalizing off with
  | nil => simp [topTriangles]
  | cons t ts ih =>
      have : 3 * (t :: ts).length = 3 + 3 * ts.length := by simp; ring
      rw [this, List.replicate_add]
      simp [topTriangles, topTriangle, ih]

lemma topPolys_z (tri : Poly → List (List Pt)) (off : ℕ) (zt : FVal)
    (ps : List Poly) :
    (topPolys tri off zt ps).z =
      List.replicate (3 * ((ps.map (fun p => (tri p).length)).sum)) zt := by
  induction ps generalizing off with
  | nil => simp [topPolys]
  | cons p ps ih =>
      have : 3 * (((p :: ps).map (fun p => (tri p).length)).sum) =
          3 * (tri p).length + 3 * ((ps.map (fun p => (tri p).length)).sum) := by
        simp; ring
      rw [this, List.replicate_add]
      simp [topPolys, topTriangles_z, ih]

lemma topTriangles_z_length (off : ℕ) (zt : FVal) (ts : List (List Pt)) :
    (topTriangles off zt ts).z.length = 3 * ts.length := by
  simp [topTriangles_z]

lemma topTriangles_i_length (off : ℕ) (zt : FVal) (ts : List (List Pt)) :
    (topTriangles off zt ts).i.length = ts.length := by
  induction ts generalizing off with
  | nil => simp [topTriangles]
  | cons t ts ih => simp [topTriangles, topTriangle, ih]

lemma topTriangles_j_length (off : ℕ) (zt : FVal) (ts : List (List Pt)) :
    (topTriangles off zt ts).j.length = ts.length := by
  induction ts generalizing off with
  | nil => simp [topTriangles]
  | cons t ts ih => simp [topTriangles, topTriangle, ih]

lemma topTriangles_k_length (off : ℕ) (zt : FVal) (ts : List (List Pt)) :
    (topTriangles off zt ts).k.length = ts.length := by
  induction ts generalizing off with
  | nil => simp [topTriangles]
  | cons t ts ih => simp [topTriangles, topTriangle, ih]

lemma topTriangles_x_length (off : ℕ) (zt : FVal) (ts : List (List Pt))
    (h : ∀ c ∈ ts, 3 ≤ c.length) :
    (topTriangles off zt ts).x.length = 3 * ts.length := by
  induction ts generalizing off with
  | nil => simp [topTriangles]
  | cons t ts ih =>
      have ht : t.length ≥ 3 := h t (List.mem_cons_self t ts)
      have hts : ∀ c ∈ ts, 3 ≤ c.length := fun c hc => h c (List.mem_cons_of_mem t hc)
      have htake : (t.take 3).length = 3 := by
        rw [List.length_take]
        omega
      simp [topTriangles, topTriangle, ih _ hts, htake, Nat.mul_succ, Nat.add_comm]
      omega

lemma topTriangles_y_length (off : ℕ) (zt : FVal) (ts : List (List Pt))
    (h : ∀ c ∈ ts, 3 ≤ c.length) :
    (topTriangles off zt ts).y.length = 3 * ts.length := by
  induction ts generalizing off with
  | nil => simp [topTriangles]
  | cons t ts ih =>
      have ht : t.length ≥ 3 := h t (List.mem_cons_self t ts)
      have hts : ∀ c ∈ ts, 3 ≤ c.length := fun c hc => h c (List.mem_cons_of_mem t hc)
      have htake : (t.take 3).length = 3 := by
        rw [List.length_take]
        omega
      simp [topTriangles, topTriangle, ih _ hts, htake, Nat.mul_succ, Nat.add_comm]
      omega

lemma topTriangles_index_bound (off : ℕ) (zt : FVal) (ts : List (List Pt)) {v : ℕ}
    (h : v ∈ (topTriangles off zt ts).i ∨ v ∈ (topTriangles off zt ts).j ∨
      v ∈ (topTriangles off zt ts).k) :
    off ≤ v ∧ v < off + 3 * ts.length := by
  induction ts generalizing off with
  | nil => simp [topTriangles, Fragment.empty] at h
  | cons t ts ih =>
      simp only [topTriangles, app_i, app_j, app_k, List.mem_append] at h
      have step : (v ∈ (topTriangle off zt t).i ∨ v ∈ (topTriangle off zt t).j ∨
          v ∈ (topTriangle off zt t).k) ∨
          (v ∈ (topTriangles (off + 3) zt ts).i ∨
            v ∈ (topTriangles (off + 3) zt ts).j ∨
            v ∈ (topTriangles (off + 3) zt ts).k) := by
        tauto
      rcases step with hs | hs
      · have : v = off + 0 ∨ v = off + 1 ∨ v = off + 2 := by
          rcases hs with hs | hs | hs <;> simp [topTriangle] at hs <;> omega
        simp only [List.length_cons]
        omega
      · have := ih _ hs
        simp only [List.length_cons]
        omega

lemma topPolys_i_length (tri : Poly → List (List Pt)) (off : ℕ) (zt : FVal)
    (ps : List Poly) :
    (topPolys tri off zt ps).i.length = (ps.map (fun p => (tri p).length)).sum := by
  induction ps generalizing off with
  | nil => simp [topPolys]
  | cons p ps ih => simp [topPolys, topTriangles_i_length, ih]

lemma topPolys_j_length (tri : Poly → List (List Pt)) (off : ℕ) (zt : FVal)
    (ps : List Poly) :
    (topPolys tri off zt ps).j.length = (ps.map (fun p => (tri p).length)).sum := by
  induction ps generalizing off with
  | nil => simp [topPolys]
  | cons p ps ih => simp [topPolys, topTriangles_j_length, ih]

lemma topPolys_k_length (tri : Poly → List (List Pt)) (off : ℕ) (zt : FVal)
    (ps : List Poly) :
    (topPolys tri off zt ps).k.length = (ps.map (fun p => (tri p).length)).sum := by
  induction ps generalizing off with
  | nil => simp [topPolys]
  | cons p ps ih => simp [topPolys, topTriangles_k_length, ih]

lemma topPolys_z_length (tri : Poly → List (List Pt)) (off : ℕ) (zt : FVal)
    (ps : List Poly) :
    (topPolys tri off zt ps).z.length =
      3 * ((ps.map (fun p => (tri p).length)).sum) := by
  simp [topPolys_z]

lemma topPolys_x_length (tri : Poly → List (List Pt)) (off : ℕ) (zt : FVal)
    (ps : List Poly) (h : ∀ p ∈ ps, ∀ c ∈ tri p, 3 ≤ c.length) :
    (topPolys tri off zt ps).x.length =
      3 * ((ps.map (fun p => (tri p).length)).sum) := by
  induction ps generalizing off with
  | nil => simp [topPolys]
  | cons p ps ih =>
      have hp : ∀ c ∈ tri p, 3 ≤ c.length := h p (List.mem_cons_self p ps)
      have hps : ∀ q ∈ ps, ∀ c ∈ tri q, 3 ≤ c.length :=
        fun q hq => h q (List.mem_cons_of_mem p hq)
      simp [topPolys, topTriangles_x_length _ _ _ hp, ih _ hps, Nat.mul_add]

lemma topPolys_y_length (tri : Poly → List (List Pt)) (off : ℕ) (zt : FVal)
    (ps : List Poly) (h : ∀ p ∈ ps, ∀ c ∈ tri p, 3 ≤ c.length) :
    (topPolys tri off zt ps).y.length =
      3 * ((ps.map (fun p => (tri p).length)).sum) := by
  induction ps generalizing off with
  | nil => simp [topPolys]
  | cons p ps ih =>
      have hp : ∀ c ∈ tri p, 3 ≤ c.length := h p (List.mem_cons_self p ps)
      have hps : ∀ q ∈ ps, ∀ c ∈ tri q, 3 ≤ c.length :=
        fun q hq => h q (List.mem_cons_of_mem p hq)
      simp [topPolys, topTriangles_y_length _ _ _ hp, ih _ hps, Nat.mul_add]

lemma topPolys_index_bound (tri : Poly → List (List Pt)) (off : ℕ) (zt : FVal)
    (ps : List Poly) {v : ℕ}
    (h : v ∈ (topPolys tri off zt ps).i ∨ v ∈ (topPolys tri off zt ps).j ∨
      v ∈ (topPolys tri off zt ps).k) :
    off ≤ v ∧ v < off + 3 * ((ps.map (fun p => (tri p).length)).sum) := by
  induction ps generalizing off with
  | nil => simp [topPolys] at h
  | cons p ps ih =>
      simp only [topPolys, app_i, app_j, app_k, List.mem_append] at h
      have step : (v ∈ (topTriangles off zt (tri p)).i ∨
          v ∈ (topTriangles off zt (tri p)).j ∨
          v ∈ (topTriangles off zt (tri p)).k) ∨
          (v ∈ (topPolys tri (off + 3 * (tri p).length) zt ps).i ∨
            v ∈ (topPolys tri (off + 3 * (tri p).length) zt ps).j ∨
            v ∈ (topPolys tri (off + 3 * (tri p).length) zt ps).k) := by
        tauto
      rcases step with hs | hs
      · have := topTriangles_index_bound off zt (tri p) hs
        simp only [List.map_cons, List.sum_cons]
        omega
      · have := ih _ hs
        simp only [List.map_cons, List.sum_cons]
        omega

/-! ### Multipolygon concatenation as shifted merging -/

lemma walls_merge (zt : FVal) (ps : List Poly) :
    wallPolys 0 zt ps =
      (ps.map (fun p => polygon_side_walls (.polygon p) zt)).foldr
        mergeShift Fragment.empty := by
  induction ps with
  | nil => simp [wallPolys]
  | cons p ps ih =>
      rw [List.map_cons, List.foldr_cons, ← ih, mergeShift, walls_single,
        wallEdges_x_length]
      rw [wallPolys, ← wallPolys_shift, Nat.zero_add]

lemma top_merge (tri : Poly → List (List Pt)) (zt : FVal) (ps : List Poly)
    (h : ∀ p ∈ ps, ∀ c ∈ tri p, 3 ≤ c.length) :
    topPolys tri 0 zt ps =
      (ps.map (fun p => polygon_to_3d_top tri (.polygon p) zt)).foldr
        mergeShift Fragment.empty := by
  induction ps with
  | nil => simp [topPolys]
  | cons p ps ih =>
      have hp : ∀ c ∈ tri p, 3 ≤ c.length := h p (List.mem_cons_self p ps)
      have hps : ∀ q ∈ ps, ∀ c ∈ tri q, 3 ≤ c.length :=
        fun q hq => h q (List.mem_cons_of_mem p hq)
      rw [List.map_cons, List.foldr_cons, ← ih hps, mergeShift, top_single]
      have hx : (topTriangles 0 zt (tri p)).x.length = 3 * (tri p).length :=
        topTriangles_x_length 0 zt (tri p) hp
      rw [hx, topPolys, ← topPolys_shift, Nat.zero_add]

/-! ### Remaining helpers -/

lemma empty_app (f : Fragment) : Fragment.empty.app f = f := by
  cases f
  simp [Fragment.app, Fragment.empty]

/-- `(idx - 1) mod n` stepped forward by one edge is `idx` again. -/
lemma wrap_mod (n idx : ℕ) (h : idx < n) :
    ((idx + n - 1) % n + 1) % n = idx := by
  cases idx with
  | zero =>
      have e : 0 + n - 1 = n - 1 := by omega
      rw [e, Nat.mod_eq_of_lt (show n - 1 < n by omega),
        show n - 1 + 1 = n by omega, Nat.mod_self]
  | succ m =>
      have e : m + 1 + n - 1 = n + m := by omega
      rw [e, Nat.add_mod_left, Nat.mod_eq_of_lt (show m < n by omega),
        Nat.mod_eq_of_lt (show m + 1 < n by omega)]

lemma wallEdges_z_mem (off : ℕ) (zt : FVal) (b : List Pt) {v : FVal}
    (h : v ∈ (wallEdges off zt b).z) : v = zt ∨ v = FVal.fin 0 := by
  rw [wallEdges_z] at h
  obtain ⟨s, hs, hv⟩ := List.mem_flatten.1 h
  obtain ⟨idx, _, rfl⟩ := List.mem_map.1 hs
  simp [edgeFrag, wallEdge] at hv
  tauto

lemma wallPolys_z_mem (off : ℕ) (zt : FVal) (ps : List Poly) {v : FVal}
    (h : v ∈ (wallPolys off zt ps).z) : v = zt ∨ v = FVal.fin 0 := by
  induction ps generalizing off with
  | nil => simp [wallPolys] at h
  | cons p ps ih =>
      simp only [wallPolys, app_z, List.mem_append] at h
      rcases h with h | h
      · exact wallEdges_z_mem off zt (stripClose p) h
      · exact ih _ h

lemma topPolys_empty_of_no_triangles (tri : Poly → List (List Pt)) (zt : FVal) :
    ∀ (ps : List Poly) (off : ℕ), (∀ p ∈ ps, tri p = []) →
      topPolys tri off zt ps = Fragment.empty := by
  intro ps
  induction ps with
  | nil => intro off _; rfl
  | cons p ps ih =>
      intro off h
      have hp : tri p = [] := h p (List.mem_cons_self p ps)
      have hps : ∀ q ∈ ps, tri q = [] := fun q hq => h q (List.mem_cons_of_mem p hq)
      rw [topPolys, hp]
      simp only [topTriangles, List.length_nil, Nat.mul_zero, Nat.add_zero]
      rw [empty_app, ih _ hps]

/-! ### Claims -/

/-- C1: `polygon_side_walls` on a polygon whose boundary has `n` distinct
vertices after stripping a closing duplicate returns a fragment with exactly
`4n` vertices (each of the x, y, z lists) and `2n` triangles (each of the
i, j, k lists); on a MultiPolygon the counts are `4 * (sum of the n_i)` and
`2 * (sum of the n_i)` over the constituent polygons. -/
theorem C1_wall_counts (zt : FVal) (p : Poly) (ps : List Poly) (n : ℕ)
    (_hnd : (stripClose p).Nodup) (hn : (stripClose p).length = n)
    (_hnds : ∀ q ∈ ps, (stripClose q).Nodup) :
    ((polygon_side_walls (.polygon p) zt).x.length = 4 * n ∧
      (polygon_side_walls (.polygon p) zt).y.length = 4 * n ∧
      (polygon_side_walls (.polygon p) zt).z.length = 4 * n ∧
      (polygon_side_walls (.polygon p) zt).i.length = 2 * n ∧
      (polygon_side_walls (.polygon p) zt).j.length = 2 * n ∧
      (polygon_side_walls (.polygon p) zt).k.length = 2 * n) ∧
    ((polygon_side_walls (.multiPolygon ps) zt).x.length =
        4 * ((ps.map (fun q => (stripClose q).length)).sum) ∧
      (polygon_side_walls (.multiPolygon ps) zt).i.length =
        2 * ((ps.map (fun q => (stripClose q).length)).sum)) := by
  subst hn
  constructor
  · rw [walls_single]
    exact ⟨wallEdges_x_length 0 zt _, wallEdges_y_length 0 zt _,
      wallEdges_z_length 0 zt _, wallEdges_i_length 0 zt _,
      wallEdges_j_length 0 zt _, wallEdges_k_length 0 zt _⟩
  · exact ⟨wallPolys_x_length 0 zt ps, wallPolys_i_length 0 zt ps⟩

/-- Witness for C1: the unit square (n = 4) and a two-square multipolygon. -/
theorem C1_wall_counts_witness :
    ((stripClose sqc).Nodup ∧ (stripClose sqc).length = 4 ∧
      (∀ q ∈ [sqc, sqc2], (stripClose q).Nodup)) ∧
    (((polygon_side_walls (.polygon sqc) (FVal.fin 5)).x.length = 4 * 4 ∧
      (polygon_side_walls (.polygon sqc) (FVal.fin 5)).y.length = 4 * 4 ∧
      (polygon_side_walls (.polygon sqc) (FVal.fin 5)).z.length = 4 * 4 ∧
      (polygon_side_walls (.polygon sqc) (FVal.fin 5)).i.length = 2 * 4 ∧
      (polygon_side_walls (.polygon sqc) (FVal.fin 5)).j.length = 2 * 4 ∧
      (polygon_side_walls (.polygon sqc) (FVal.fin 5)).k.length = 2 * 4) ∧
    ((polygon_side_walls (.multiPolygon [sqc, sqc2]) (FVal.fin 5)).x.length =
        4 * (([sqc, sqc2].map (fun q => (stripClose q).length)).sum) ∧
      (polygon_side_walls (.multiPolygon [sqc, sqc2]) (FVal.fin 5)).i.length =
        2 * (([sqc, sqc2].map (fun q => (stripClose q).length)).sum))) :=
  ⟨⟨by decide, by decide, by decide⟩,
    C1_wall_counts (FVal.fin 5) sqc [sqc, sqc2] 4 (by decide) (by decide) (by decide)⟩

/-- C3 is false of the code: a degenerate boundary with only 2 distinct
points after de-duplication is not rejected — `polygon_side_walls` silently
returns this malformed 8-vertex, 4-triangle fragment instead of signalling
an error (there is no validation or raise in the function). -/
theorem C3_counterexample :
    polygon_side_walls (.polygon [((0 : ℚ), (0 : ℚ)), (1, 0), (0, 0)]) (FVal.fin 5) =
      ⟨[0, 1, 0, 1, 1, 0, 1, 0], [0, 0, 0, 0, 0, 0, 0, 0],
        [.fin 5, .fin 5, .fin 0, .fin 0, .fin 5, .fin 5, .fin 0, .fin 0],
        [0, 1, 4, 5], [1, 3, 5, 7], [2, 2, 6, 6]⟩ := by decide

/-- C3 amended: `polygon_side_walls` performs no input validation; on a
boundary with fewer than 3 distinct points after de-duplication it still
returns the degenerate `4n`-vertex, `2n`-triangle skirt. -/
theorem C3_amended_silent_fragment (p : Poly) (zt : FVal)
    (_h : (stripClose p).length < 3) :
    (polygon_side_walls (.polygon p) zt).x.length = 4 * (stripClose p).length ∧
    (polygon_side_walls (.polygon p) zt).i.length = 2 * (stripClose p).length := by
  rw [walls_single]
  exact ⟨wallEdges_x_length 0 zt _, wallEdges_i_length 0 zt _⟩

/-- Witness for the amended C3: the 2-distinct-point boundary. -/
theorem C3_amended_witness :
    (stripClose [((0 : ℚ), (0 : ℚ)), (1, 0), (0, 0)]).length < 3 ∧
    ((polygon_side_walls (.polygon [((0 : ℚ), (0 : ℚ)), (1, 0), (0, 0)])
          (FVal.fin 5)).x.length =
        4 * (stripClose [((0 : ℚ), (0 : ℚ)), (1, 0), (0, 0)]).length ∧
      (polygon_side_walls (.polygon [((0 : ℚ), (0 : ℚ)), (1, 0), (0, 0)])
          (FVal.fin 5)).i.length =
        2 * (stripClose [((0 : ℚ), (0 : ℚ)), (1, 0), (0, 0)]).length) :=
  ⟨by decide, C3_amended_silent_fragment _ (FVal.fin 5) (by decide)⟩

/-- C5: every z-coordinate in the fragment returned by `polygon_to_3d_top`
equals the given `z_top` (for any polygon or multipolygon, any triangulation
result and any height, zero and negative included): the z list is constantly
`z_top`. -/
theorem C5_top_z_equals_height (tri : Poly → List (List Pt))
    (geometry : Geometry) (zt : FVal) :
    (polygon_to_3d_top tri geometry zt).z =
      List.replicate ((polygon_to_3d_top tri geometry zt).z.length) zt := by
  rw [polygon_to_3d_top, topPolys_z, List.length_replicate]

/-- C7 is false of the code: on a non-empty geometry whose triangulation
yields zero triangles, `polygon_to_3d_top` returns the empty fragment
instead of failing explicitly (the function contains no error path). -/
theorem C7_counterexample :
    polygon_to_3d_top triEmpty (.polygon sqc) (FVal.fin 5) = Fragment.empty := rfl

/-- C7 amended: `polygon_to_3d_top` never fails; it emits exactly one
triangle per triangulation-result triangle (degenerate ones are not skipped:
the count is the sum of the per-polygon triangulation lengths regardless of
the triangle contents), and when the triangulation yields no triangles for
any constituent polygon it returns the empty fragment. -/
theorem C7_amended_empty_fragment (tri : Poly → List (List Pt))
    (geometry : Geometry) (zt : FVal) :
    (polygon_to_3d_top tri geometry zt).i.length =
      ((geoms geometry).map (fun p => (tri p).length)).sum ∧
    ((∀ p ∈ geoms geometry, tri p = []) →
      polygon_to_3d_top tri geometry zt = Fragment.empty) := by
  exact ⟨topPolys_i_length tri 0 zt _,
    fun h => topPolys_empty_of_no_triangles tri zt _ 0 h⟩

/-- Witness for the amended C7: the unit square with the empty
triangulation. -/
theorem C7_amended_witness :
    (∀ p ∈ geoms (.polygon sqc), triEmpty p = []) ∧
    ((polygon_to_3d_top triEmpty (.polygon sqc) (FVal.fin 5)).i.length =
        ((geoms (.polygon sqc)).map (fun p => (triEmpty p).length)).sum ∧
      polygon_to_3d_top triEmpty (.polygon sqc) (FVal.fin 5) = Fragment.empty) :=
  ⟨by decide,
    (C7_amended_empty_fragment triEmpty (.polygon sqc) (FVal.fin 5)).1,
    (C7_amended_empty_fragment triEmpty (.polygon sqc) (FVal.fin 5)).2 (by decide)⟩

/-- C9: when the exterior coordinate sequence closes (first point equals
last point, with more than one point), `polygon_side_walls` strips the
closing duplicate before edge-walking: it processes exactly the
`length - 1` remaining boundary vertices, each contributing one wall edge
(4 vertices, 2 triangles). -/
theorem C9_strip_closing_duplicate (b : Poly) (zt : FVal)
    (hlen : 1 < b.length) (hclose : b.head? = b.getLast?) :
    stripClose b = b.dropLast ∧
    polygon_side_walls (.polygon b) zt = wallEdges 0 zt b.dropLast ∧
    (polygon_side_walls (.polygon b) zt).x.length = 4 * (b.length - 1) ∧
    (polygon_side_walls (.polygon b) zt).i.length = 2 * (b.length - 1) := by
  have hstrip : stripClose b = b.dropLast := by
    rw [stripClose, if_pos ⟨hlen, hclose⟩]
  have hdl : b.dropLast.length = b.length - 1 := List.length_dropLast b
  refine ⟨hstrip, ?_, ?_, ?_⟩
  · rw [walls_single, hstrip]
  · rw [walls_single, hstrip, wallEdges_x_length, hdl]
  · rw [walls_single, hstrip, wallEdges_i_length, hdl]

/-- Witness for C9: the closed unit-square ring. -/
theorem C9_strip_closing_duplicate_witness :
    (1 < sqc.length ∧ sqc.head? = sqc.getLast?) ∧
    (stripClose sqc = sqc.dropLast ∧
      polygon_side_walls (.polygon sqc) (FVal.fin 3) =
        wallEdges 0 (FVal.fin 3) sqc.dropLast ∧
      (polygon_side_walls (.polygon sqc) (FVal.fin 3)).x.length =
        4 * (sqc.length - 1) ∧
      (polygon_side_walls (.polygon sqc) (FVal.fin 3)).i.length =
        2 * (sqc.length - 1)) :=
  ⟨⟨by decide, by decide⟩,
    C9_strip_closing_duplicate sqc (FVal.fin 3) (by decide) (by decide)⟩

/-- C2: for every edge `idx` of the de-duplicated boundary, the wall
fragment stores at vertex slots `4*idx .. 4*idx+3` exactly
`top1 = (x1,y1,z_top)`, `top2 = (x2,y2,z_top)`, `bot1 = (x1,y1,0)`,
`bot2 = (x2,y2,0)` in that order, and the two triangles at triangle slots
`2*idx, 2*idx+1` are `(0,1,2)` and `(1,3,2)` relative to the vertex offset
`4*idx`. -/
theorem C2_wall_edge_layout (b : Poly) (zt : FVal) (idx : ℕ)
    (h : idx < (stripClose b).length) :
    ((polygon_side_walls (.polygon b) zt).x.drop (4 * idx)).take 4 =
      [((stripClose b).getD idx (0, 0)).1,
        ((stripClose b).getD ((idx + 1) % (stripClose b).length) (0, 0)).1,
        ((stripClose b).getD idx (0, 0)).1,
        ((stripClose b).getD ((idx + 1) % (stripClose b).length) (0, 0)).1] ∧
    ((polygon_side_walls (.polygon b) zt).y.drop (4 * idx)).take 4 =
      [((stripClose b).getD idx (0, 0)).2,
        ((stripClose b).getD ((idx + 1) % (stripClose b).length) (0, 0)).2,
        ((stripClose b).getD idx (0, 0)).2,
        ((stripClose b).getD ((idx + 1) % (stripClose b).length) (0, 0)).2] ∧
    ((polygon_side_walls (.polygon b) zt).z.drop (4 * idx)).take 4 =
      [zt, zt, FVal.fin 0, FVal.fin 0] ∧
    ((polygon_side_walls (.polygon b) zt).i.drop (2 * idx)).take 2 =
      [4 * idx + 0, 4 * idx + 1] ∧
    ((polygon_side_walls (.polygon b) zt).j.drop (2 * idx)).take 2 =
      [4 * idx + 1, 4 * idx + 3] ∧
    ((polygon_side_walls (.polygon b) zt).k.drop (2 * idx)).take 2 =
      [4 * idx + 2, 4 * idx + 2] := by
  rw [walls_single]
  refine ⟨?_, ?_, ?_, ?_, ?_, ?_⟩
  · rw [wallEdges_x_slice 0 zt _ h]
    rfl
  · rw [wallEdges_y_slice 0 zt _ h]
    rfl
  · rw [wallEdges_z_slice 0 zt _ h]
    rfl
  · rw [wallEdges_i_slice 0 zt _ h]
    simp [edgeFrag, wallEdge]
  · rw [wallEdges_j_slice 0 zt _ h]
    simp [edgeFrag, wallEdge]
  · rw [wallEdges_k_slice 0 zt _ h]
    simp [edgeFrag, wallEdge]

/-- Witness for C2: edge 1 of the unit square at height 5. -/
theorem C2_wall_edge_layout_witness :
    1 < (stripClose sqc).length ∧
    (((polygon_side_walls (.polygon sqc) (FVal.fin 5)).x.drop (4 * 1)).take 4 =
      [((stripClose sqc).getD 1 (0, 0)).1,
        ((stripClose sqc).getD ((1 + 1) % (stripClose sqc).length) (0, 0)).1,
        ((stripClose sqc).getD 1 (0, 0)).1,
        ((stripClose sqc).getD ((1 + 1) % (stripClose sqc).length) (0, 0)).1] ∧
    ((polygon_side_walls (.polygon sqc) (FVal.fin 5)).y.drop (4 * 1)).take 4 =
      [((stripClose sqc).getD 1 (0, 0)).2,
        ((stripClose sqc).getD ((1 + 1) % (stripClose sqc).length) (0, 0)).2,
        ((stripClose sqc).getD 1 (0, 0)).2,
        ((stripClose sqc).getD ((1 + 1) % (stripClose sqc).length) (0, 0)).2] ∧
    ((polygon_side_walls (.polygon sqc) (FVal.fin 5)).z.drop (4 * 1)).take 4 =
      [FVal.fin 5, FVal.fin 5, FVal.fin 0, FVal.fin 0] ∧
    ((polygon_side_walls (.polygon sqc) (FVal.fin 5)).i.drop (2 * 1)).take 2 =
      [4 * 1 + 0, 4 * 1 + 1] ∧
    ((polygon_side_walls (.polygon sqc) (FVal.fin 5)).j.drop (2 * 1)).take 2 =
      [4 * 1 + 1, 4 * 1 + 3] ∧
    ((polygon_side_walls (.polygon sqc) (FVal.fin 5)).k.drop (2 * 1)).take 2 =
      [4 * 1 + 2, 4 * 1 + 2]) :=
  ⟨by decide, C2_wall_edge_layout sqc (FVal.fin 5) 1 (by decide)⟩

/-- C4: the skirt closes: the `top1`/`bot1` vertices emitted for edge `idx`
carry the same (x, y) as the `top2`/`bot2` vertices emitted for edge
`(idx - 1) mod n`, so consecutive edges share boundary points and the final
edge connects back to vertex 0. -/
theorem C4_wall_skirt_closure (b : Poly) (zt : FVal) (idx n : ℕ)
    (hn : (stripClose b).length = n) (h : idx < n) :
    (polygon_side_walls (.polygon b) zt).x[4 * idx]? =
      (polygon_side_walls (.polygon b) zt).x[4 * ((idx + n - 1) % n) + 1]? ∧
    (polygon_side_walls (.polygon b) zt).y[4 * idx]? =
      (polygon_side_walls (.polygon b) zt).y[4 * ((idx + n - 1) % n) + 1]? ∧
    (polygon_side_walls (.polygon b) zt).x[4 * idx + 2]? =
      (polygon_side_walls (.polygon b) zt).x[4 * ((idx + n - 1) % n) + 3]? ∧
    (polygon_side_walls (.polygon b) zt).y[4 * idx + 2]? =
      (polygon_side_walls (.polygon b) zt).y[4 * ((idx + n - 1) % n) + 3]? := by
  subst hn
  rw [walls_single]
  set s := stripClose b with hs
  have hj : (idx + s.length - 1) % s.length < s.length := Nat.mod_lt _ (by omega)
  have hwrap := wrap_mod s.length idx h
  refine ⟨?_, ?_, ?_, ?_⟩
  · have e1 : (wallEdges 0 zt s).x[4 * idx + 0]? = (edgeFrag 0 zt s idx).x[0]? :=
      slice_getElem (wallEdges_x_slice 0 zt s h) (by omega)
    have e2 : (wallEdges 0 zt s).x[4 * ((idx + s.length - 1) % s.length) + 1]? =
        (edgeFrag 0 zt s ((idx + s.length - 1) % s.length)).x[1]? :=
      slice_getElem (wallEdges_x_slice 0 zt s hj) (by omega)
    rw [show 4 * idx = 4 * idx + 0 by omega, e1, e2]
    simp [edgeFrag, wallEdge, hwrap]
  · have e1 : (wallEdges 0 zt s).y[4 * idx + 0]? = (edgeFrag 0 zt s idx).y[0]? :=
      slice_getElem (wallEdges_y_slice 0 zt s h) (by omega)
    have e2 : (wallEdges 0 zt s).y[4 * ((idx + s.length - 1) % s.length) + 1]? =
        (edgeFrag 0 zt s ((idx + s.length - 1) % s.length)).y[1]? :=
      slice_getElem (wallEdges_y_slice 0 zt s hj) (by omega)
    rw [show 4 * idx = 4 * idx + 0 by omega, e1, e2]
    simp [edgeFrag, wallEdge, hwrap]
  · have e1 : (wallEdges 0 zt s).x[4 * idx + 2]? = (edgeFrag 0 zt s idx).x[2]? :=
      slice_getElem (wallEdges_x_slice 0 zt s h) (by omega)
    have e2 : (wallEdges 0 zt s).x[4 * ((idx + s.length - 1) % s.length) + 3]? =
        (edgeFrag 0 zt s ((idx + s.length - 1) % s.length)).x[3]? :=
      slice_getElem (wallEdges_x_slice 0 zt s hj) (by omega)
    rw [e1, e2]
    simp [edgeFrag, wallEdge, hwrap]
  · have e1 : (wallEdges 0 zt s).y[4 * idx + 2]? = (edgeFrag 0 zt s idx).y[2]? :=
      slice_getElem (wallEdges_y_slice 0 zt s h) (by omega)
    have e2 : (wallEdges 0 zt s).y[4 * ((idx + s.length - 1) % s.length) + 3]? =
        (edgeFrag 0 zt s ((idx + s.length - 1) % s.length)).y[3]? :=
      slice_getElem (wallEdges_y_slice 0 zt s hj) (by omega)
    rw [e1, e2]
    simp [edgeFrag, wallEdge, hwrap]

/-- Witness for C4: edge 0 of the unit square (wrapping to edge 3). -/
theorem C4_wall_skirt_closure_witness :
    ((stripClose sqc).length = 4 ∧ 0 < 4) ∧
    ((polygon_side_walls (.polygon sqc) (FVal.fin 2)).x[4 * 0]? =
      (polygon_side_walls (.polygon sqc) (FVal.fin 2)).x[4 * ((0 + 4 - 1) % 4) + 1]? ∧
    (polygon_side_walls (.polygon sqc) (FVal.fin 2)).y[4 * 0]? =
      (polygon_side_walls (.polygon sqc) (FVal.fin 2)).y[4 * ((0 + 4 - 1) % 4) + 1]? ∧
    (polygon_side_walls (.polygon sqc) (FVal.fin 2)).x[4 * 0 + 2]? =
      (polygon_side_walls (.polygon sqc) (FVal.fin 2)).x[4 * ((0 + 4 - 1) % 4) + 3]? ∧
    (polygon_side_walls (.polygon sqc) (FVal.fin 2)).y[4 * 0 + 2]? =
      (polygon_side_walls (.polygon sqc) (FVal.fin 2)).y[4 * ((0 + 4 - 1) % 4) + 3]?) :=
  ⟨⟨by decide, by decide⟩,
    C4_wall_skirt_closure sqc (FVal.fin 2) 0 4 (by decide) (by decide)⟩

/-- C8 is false of the code: a non-finite height is not rejected — both
functions return a fragment whose z coordinates contain the non-finite
value. -/
theorem C8_counterexample :
    FVal.nan ∈ (polygon_side_walls (.polygon sqc) FVal.nan).z ∧
    FVal.inf ∈ (polygon_to_3d_top triSq (.polygon sqc) FVal.inf).z := by decide

/-- C8 amended: `polygon_side_walls` performs no height validation; any
`z_top`, non-finite included, is stored verbatim, so every z entry of the
wall fragment is either `z_top` or the base value 0. -/
theorem C8_amended_height_stored_verbatim (geometry : Geometry) (zt : FVal) :
    ∀ v ∈ (polygon_side_walls geometry zt).z, v = zt ∨ v = FVal.fin 0 := by
  intro v hv
  exact wallPolys_z_mem 0 zt (geoms geometry) hv

/-- Witness for the amended C8: infinite height on a two-square
multipolygon. -/
theorem C8_amended_witness :
    FVal.inf ∈ (polygon_side_walls (.multiPolygon [sqc, sqc2]) FVal.inf).z ∧
    (FVal.inf = FVal.inf ∨ FVal.inf = FVal.fin 0) :=
  ⟨by decide,
    C8_amended_height_stored_verbatim (.multiPolygon [sqc, sqc2]) FVal.inf
      FVal.inf (by decide)⟩

/-- Summing the single-polygon wall triangle counts. -/
lemma walls_single_sum (zt : FVal) (ps : List Poly) :
    (ps.map (fun p => (polygon_side_walls (.polygon p) zt).i.length)).sum =
      2 * ((ps.map (fun q => (stripClose q).length)).sum) := by
  induction ps with
  | nil => rfl
  | cons q qs ih =>
      simp only [List.map_cons, List.sum_cons]
      rw [ih, walls_single, wallEdges_i_length]
      omega

/-- Summing the single-polygon top triangle counts. -/
lemma top_single_sum (tri : Poly → List (List Pt)) (zt : FVal) (ps : List Poly) :
    (ps.map (fun p => (polygon_to_3d_top tri (.polygon p) zt).i.length)).sum =
      (ps.map (fun p => (tri p).length)).sum := by
  induction ps with
  | nil => rfl
  | cons q qs ih =>
      simp only [List.map_cons, List.sum_cons]
      rw [ih, top_single, topTriangles_i_length]

/-- C6: the fragment produced for a MultiPolygon is the concatenation, with
vertex offsets shifted past the preceding constituents' vertices, of the
fragments produced for each constituent polygon individually; the triangle
count is the sum of the constituents' counts, and — because every
single-polygon fragment's triangle indices are below its own vertex count —
no triangle references vertices of two different constituents.  The
top-surface half assumes every triangulation-result triangle carries at
least 3 coordinates, as shapely's closed 4-point triangle rings do. -/
theorem C6_multipart_independence (tri : Poly → List (List Pt)) (zt : FVal)
    (ps : List Poly) :
    (polygon_side_walls (.multiPolygon ps) zt =
        (ps.map (fun p => polygon_side_walls (.polygon p) zt)).foldr
          mergeShift Fragment.empty) ∧
    ((polygon_side_walls (.multiPolygon ps) zt).i.length =
        (ps.map (fun p => (polygon_side_walls (.polygon p) zt).i.length)).sum) ∧
    (∀ p ∈ ps, ∀ v : ℕ,
        (v ∈ (polygon_side_walls (.polygon p) zt).i ∨
          v ∈ (polygon_side_walls (.polygon p) zt).j ∨
          v ∈ (polygon_side_walls (.polygon p) zt).k) →
        v < (polygon_side_walls (.polygon p) zt).x.length) ∧
    ((∀ p ∈ ps, ∀ c ∈ tri p, 3 ≤ c.length) →
      (polygon_to_3d_top tri (.multiPolygon ps) zt =
          (ps.map (fun p => polygon_to_3d_top tri (.polygon p) zt)).foldr
            mergeShift Fragment.empty) ∧
      ((polygon_to_3d_top tri (.multiPolygon ps) zt).i.length =
          (ps.map (fun p =>
            (polygon_to_3d_top tri (.polygon p) zt).i.length)).sum) ∧
      (∀ p ∈ ps, ∀ v : ℕ,
          (v ∈ (polygon_to_3d_top tri (.polygon p) zt).i ∨
            v ∈ (polygon_to_3d_top tri (.polygon p) zt).j ∨
            v ∈ (polygon_to_3d_top tri (.polygon p) zt).k) →
          v < (polygon_to_3d_top tri (.polygon p) zt).x.length)) := by
  refine ⟨?_, ?_, ?_, fun htri => ⟨?_, ?_, ?_⟩⟩
  · exact walls_merge zt ps
  · have h1 : (polygon_side_walls (.multiPolygon ps) zt).i.length =
        2 * ((ps.map (fun q => (stripClose q).length)).sum) :=
      wallPolys_i_length 0 zt ps
    rw [h1]
    exact (walls_single_sum zt ps).symm
  · intro p hp v hv
    rw [walls_single] at hv
    have hb := wallEdges_index_bound 0 zt (stripClose p) hv
    rw [walls_single, wallEdges_x_length]
    omega
  · exact top_merge tri zt ps htri
  · have h1 : (polygon_to_3d_top tri (.multiPolygon ps) zt).i.length =
        (ps.map (fun p => (tri p).length)).sum :=
      topPolys_i_length tri 0 zt ps
    rw [h1]
    exact (top_single_sum tri zt ps).symm
  · intro p hp v hv
    rw [top_single] at hv
    have hb := topTriangles_index_bound 0 zt (tri p) hv
    rw [top_single, topTriangles_x_length 0 zt (tri p) (htri p hp)]
    omega

/-- Witness for C6: a multipolygon of the two disjoint squares. -/
theorem C6_multipart_independence_witness :
    (∀ p ∈ [sqc, sqc2], ∀ c ∈ triSq p, 3 ≤ c.length) ∧
    (polygon_side_walls (.multiPolygon [sqc, sqc2]) (FVal.fin 5) =
        ([sqc, sqc2].map (fun p =>
          polygon_side_walls (.polygon p) (FVal.fin 5))).foldr
          mergeShift Fragment.empty) ∧
    (polygon_to_3d_top triSq (.multiPolygon [sqc, sqc2]) (FVal.fin 5) =
        ([sqc, sqc2].map (fun p =>
          polygon_to_3d_top triSq (.polygon p) (FVal.fin 5))).foldr
          mergeShift Fragment.empty) :=
  ⟨by decide, (C6_multipart_independence triSq (FVal.fin 5) [sqc, sqc2]).1,
    ((C6_multipart_independence triSq (FVal.fin 5) [sqc, sqc2]).2.2.2
      (by decide)).1⟩

/-- C10: both returned fragments are well-formed: the coordinate lists
x, y, z have equal lengths, the index lists i, j, k have equal lengths,
every index in i, j, k is a valid position into the coordinate lists, the
wall fragment satisfies `len x = 2 * len i` and the top fragment satisfies
`len x = 3 * len i`.  The top half assumes each triangulation-result
triangle carries at least 3 coordinates, as shapely's closed 4-point
triangle rings do. -/
theorem C10_fragments_well_formed (tri : Poly → List (List Pt))
    (geometry : Geometry) (zt : FVal)
    (htri : ∀ p ∈ geoms geometry, ∀ c ∈ tri p, 3 ≤ c.length) :
    ((polygon_side_walls geometry zt).x.length =
        (polygon_side_walls geometry zt).y.length ∧
      (polygon_side_walls geometry zt).y.length =
        (polygon_side_walls geometry zt).z.length ∧
      (polygon_side_walls geometry zt).i.length =
        (polygon_side_walls geometry zt).j.length ∧
      (polygon_side_walls geometry zt).j.length =
        (polygon_side_walls geometry zt).k.length ∧
      (polygon_side_walls geometry zt).x.length =
        2 * (polygon_side_walls geometry zt).i.length ∧
      (∀ v : ℕ, (v ∈ (polygon_side_walls geometry zt).i ∨
          v ∈ (polygon_side_walls geometry zt).j ∨
          v ∈ (polygon_side_walls geometry zt).k) →
        v < (polygon_side_walls geometry zt).x.length)) ∧
    ((polygon_to_3d_top tri geometry zt).x.length =
        (polygon_to_3d_top tri geometry zt).y.length ∧
      (polygon_to_3d_top tri geometry zt).y.length =
        (polygon_to_3d_top tri geometry zt).z.length ∧
      (polygon_to_3d_top tri geometry zt).i.length =
        (polygon_to_3d_top tri geometry zt).j.length ∧
      (polygon_to_3d_top tri geometry zt).j.length =
        (polygon_to_3d_top tri geometry zt).k.length ∧
      (polygon_to_3d_top tri geometry zt).x.length =
        3 * (polygon_to_3d_top tri geometry zt).i.length ∧
      (∀ v : ℕ, (v ∈ (polygon_to_3d_top tri geometry zt).i ∨
          v ∈ (polygon_to_3d_top tri geometry zt).j ∨
          v ∈ (polygon_to_3d_top tri geometry zt).k) →
        v < (polygon_to_3d_top tri geometry zt).x.length)) := by
  simp only [polygon_side_walls, polygon_to_3d_top]
  have wx := wallPolys_x_length 0 zt (geoms geometry)
  have wy := wallPolys_y_length 0 zt (geoms geometry)
  have wz := wallPolys_z_length 0 zt (geoms geometry)
  have wi := wallPolys_i_length 0 zt (geoms geometry)
  have wj := wallPolys_j_length 0 zt (geoms geometry)
  have wk := wallPolys_k_length 0 zt (geoms geometry)
  have tx := topPolys_x_length tri 0 zt (geoms geometry) htri
  have ty := topPolys_y_length tri 0 zt (geoms geometry) htri
  have tz := topPolys_z_length tri 0 zt (geoms geometry)
  have ti := topPolys_i_length tri 0 zt (geoms geometry)
  have tj := topPolys_j_length tri 0 zt (geoms geometry)
  have tk := topPolys_k_length tri 0 zt (geoms geometry)
  refine ⟨⟨by omega, by omega, by omega, by omega, by omega, ?_⟩,
    ⟨by omega, by omega, by omega, by omega, by omega, ?_⟩⟩
  · intro v hv
    have hb := wallPolys_index_bound 0 zt (geoms geometry) hv
    omega
  · intro v hv
    have hb := topPolys_index_bound tri 0 zt (geoms geometry) hv
    omega

/-- Witness for C10: a two-square multipolygon with the square
triangulation, extracting the vertex-per-triangle ratios. -/
theorem C10_fragments_well_formed_witness :
    (∀ p ∈ geoms (.multiPolygon [sqc, sqc2]), ∀ c ∈ triSq p, 3 ≤ c.length) ∧
    ((polygon_side_walls (.multiPolygon [sqc, sqc2]) (FVal.fin 7)).x.length =
        2 * (polygon_side_walls (.multiPolygon [sqc, sqc2]) (FVal.fin 7)).i.length) ∧
    ((polygon_to_3d_top triSq (.multiPolygon [sqc, sqc2]) (FVal.fin 7)).x.length =
        3 * (polygon_to_3d_top triSq (.multiPolygon [sqc, sqc2]) (FVal.fin 7)).i.length) :=
  ⟨by decide,
    (C10_fragments_well_formed triSq (.multiPolygon [sqc, sqc2]) (FVal.fin 7)
      (by decide)).1.2.2.2.2.1,
    (C10_fragments_well_formed triSq (.multiPolygon [sqc, sqc2]) (FVal.fin 7)
      (by decide)).2.2.2.2.2.1⟩

end Extrude
